import Mathlib

/-!
# Verification of the AiOs compiler/VM/replay subsystem

A shallow embedding, in Lean 4, of the claim-relevant parts of the AiOs
repository (`aiox` package): the sandbox path check (`ensure_under`), the
capability policy (`PolicyStore` / `CapPolicy`), a fragment of the bytecode
VM (`VM.run` dispatch for `READ_CSV`, `CALL_TOOL`, `ASSERT_GE`), the
deterministic split (`tools/data/split/impl.py` and the VM `SPLIT` branch),
guard lowering (`compile_bc.lower_guard`), the app-id computation
(`VM.__init__`), and the undo pass (`undo.undo_last_run`).

Machine integers are modelled as `Nat` with explicit `% 2^32` where the
source performs 32-bit arithmetic (MD5 / SHA-256).  Python floats are
modelled as rationals (`ℚ`), with `PFloat` standing for the
float-or-minus-infinity values that occur in guard thresholds.  Fallible
code returns `Except`/`Option`.
-/

set_option maxRecDepth 8000

namespace AiOs

/-! ## 32-bit helpers (for `hashlib.md5` / `hashlib.sha256`) -/

/-- Truncate to a 32-bit word. -/
def w32 (n : ℕ) : ℕ := n % 4294967296

/-- The 32-bit left rotation. -/
def rotl32 (x c : ℕ) : ℕ := w32 ((x <<< c) ||| (x >>> (32 - c)))

/-- The 32-bit right rotation. -/
def rotr32 (x c : ℕ) : ℕ := w32 ((x >>> c) ||| (x <<< (32 - c)))

/-- Little-endian byte decomposition (`len` bytes). -/
def toBytesLE : ℕ → ℕ → List ℕ
  | 0, _ => []
  | l + 1, n => (n % 256) :: toBytesLE l (n / 256)

/-- Big-endian byte decomposition (`len` bytes). -/
def toBytesBE (len n : ℕ) : List ℕ := (toBytesLE len n).reverse

/-- Group a byte list into 64-byte blocks (structural recursion on fuel so
that the kernel can evaluate it). -/
def chunks64Aux : ℕ → List ℕ → List (List ℕ)
  | 0, _ => []
  | _, [] => []
  | fuel + 1, xs => xs.take 64 :: chunks64Aux fuel (xs.drop 64)

/-- Group a byte list into 64-byte blocks. -/
def chunks64 (xs : List ℕ) : List (List ℕ) := chunks64Aux xs.length xs

/-- UTF-8 encoding of one character (as `str.encode()` does). -/
def charUtf8 (c : Char) : List ℕ :=
  let n := c.toNat
  if n < 0x80 then [n]
  else if n < 0x800 then [0xC0 ||| (n >>> 6), 0x80 ||| (n &&& 0x3F)]
  else if n < 0x10000 then
    [0xE0 ||| (n >>> 12), 0x80 ||| ((n >>> 6) &&& 0x3F), 0x80 ||| (n &&& 0x3F)]
  else
    [0xF0 ||| (n >>> 18), 0x80 ||| ((n >>> 12) &&& 0x3F),
     0x80 ||| ((n >>> 6) &&& 0x3F), 0x80 ||| (n &&& 0x3F)]

/-- UTF-8 bytes of a string (as Python `s.encode("utf-8")`). -/
def strBytes (s : String) : List ℕ :=
  s.data.foldr (fun c acc => charUtf8 c ++ acc) []

/-- Lowercase hex digit. -/
def hexDigit (n : ℕ) : Char := "0123456789abcdef".data.getD n '0'

/-- Two-digit lowercase hex of one byte. -/
def byteHex (b : ℕ) : String :=
  String.mk [hexDigit (b / 16), hexDigit (b % 16)]

/-- Lowercase hex string of a byte list (as `.hexdigest()`). -/
def bytesHex (bs : List ℕ) : String :=
  bs.foldr (fun b acc => byteHex b ++ acc) ""

/-! ## MD5 (RFC 1321), as used by `hashlib.md5` in the split tool -/

/-- The 64 MD5 sine-derived constants. -/
def md5K : List ℕ := [
  3614090360, 3905402710, 606105819, 3250441966, 4118548399, 1200080426,
  2821735955, 4249261313, 1770035416, 2336552879, 4294925233, 2304563134,
  1804603682, 4254626195, 2792965006, 1236535329, 4129170786, 3225465664,
  643717713, 3921069994, 3593408605, 38016083, 3634488961, 3889429448,
  568446438, 3275163606, 4107603335, 1163531501, 2850285829, 4243563512,
  1735328473, 2368359562, 4294588738, 2272392833, 1839030562, 4259657740,
  2763975236, 1272893353, 4139469664, 3200236656, 681279174, 3936430074,
  3572445317, 76029189, 3654602809, 3873151461, 530742520, 3299628645,
  4096336452, 1126891415, 2878612391, 4237533241, 1700485571, 2399980690,
  4293915773, 2240044497, 1873313359, 4264355552, 2734768916, 1309151649,
  4149444226, 3174756917, 718787259, 3951481745]

/-- The 64 MD5 per-round left-rotation amounts. -/
def md5S : List ℕ := [
  7, 12, 17, 22, 7, 12, 17, 22, 7, 12, 17, 22, 7, 12, 17, 22,
  5, 9, 14, 20, 5, 9, 14, 20, 5, 9, 14, 20, 5, 9, 14, 20,
  4, 11, 16, 23, 4, 11, 16, 23, 4, 11, 16, 23, 4, 11, 16, 23,
  6, 10, 15, 21, 6, 10, 15, 21, 6, 10, 15, 21, 6, 10, 15, 21]

/-- MD5 round function (selected by round index). -/
def md5F (i b c d : ℕ) : ℕ :=
  if i < 16 then (b &&& c) ||| ((b ^^^ 0xffffffff) &&& d)
  else if i < 32 then (d &&& b) ||| ((d ^^^ 0xffffffff) &&& c)
  else if i < 48 then b ^^^ c ^^^ d
  else c ^^^ (b ||| (d ^^^ 0xffffffff))

/-- MD5 message-word index per round. -/
def md5G (i : ℕ) : ℕ :=
  if i < 16 then i
  else if i < 32 then (5 * i + 1) % 16
  else if i < 48 then (3 * i + 5) % 16
  else (7 * i) % 16

/-- MD5 padding: `0x80`, zeros to 56 mod 64, 8-byte little-endian bit length. -/
def md5Pad (msg : List ℕ) : List ℕ :=
  let L := msg.length
  let k := (119 - L % 64) % 64
  msg ++ [0x80] ++ List.replicate k 0 ++ toBytesLE 8 (L * 8)

/-- Little-endian 32-bit words of a block. -/
def bytesToWordsLE : List ℕ → List ℕ
  | a :: b :: c :: d :: rest =>
      (a + 256 * b + 65536 * c + 16777216 * d) :: bytesToWordsLE rest
  | _ => []

/-- One MD5 round on state `(a, b, c, d)`. -/
def md5Round (M : List ℕ) (st : ℕ × ℕ × ℕ × ℕ) (i : ℕ) : ℕ × ℕ × ℕ × ℕ :=
  let (a, b, c, d) := st
  let f := w32 (md5F i b c d + a + md5K.getD i 0 + M.getD (md5G i) 0)
  (d, w32 (b + rotl32 f (md5S.getD i 0)), b, c)

/-- MD5 compression of one 64-byte block. -/
def md5Block (st : ℕ × ℕ × ℕ × ℕ) (block : List ℕ) : ℕ × ℕ × ℕ × ℕ :=
  let M := bytesToWordsLE block
  let (a0, b0, c0, d0) := st
  let (a, b, c, d) := (List.range 64).foldl (md5Round M) (a0, b0, c0, d0)
  (w32 (a0 + a), w32 (b0 + b), w32 (c0 + c), w32 (d0 + d))

/-- MD5 digest (16 bytes) of a byte message, as `hashlib.md5(...).digest()`. -/
def md5Bytes (msg : List ℕ) : List ℕ :=
  let (a, b, c, d) :=
    (chunks64 (md5Pad msg)).foldl md5Block
      (1732584193, 4023233417, 2562383102, 271733878)
  toBytesLE 4 a ++ toBytesLE 4 b ++ toBytesLE 4 c ++ toBytesLE 4 d

/-- Models `hashlib.md5(...).hexdigest()`. -/
def md5Hex (msg : List ℕ) : String := bytesHex (md5Bytes msg)

lemma md5_hexdigest_ref :
    md5Hex (strBytes "0:1337") = "5c5aff1b2b8e89883fa65b073474ae87" := by
  decide

lemma md5_first_byte_ref0 : (md5Bytes (strBytes "0:1337")).headD 0 = 92 := by
  decide

lemma md5_first_byte_ref1 : (md5Bytes (strBytes "1:1337")).headD 0 = 195 := by
  decide

/-! ## SHA-256 (FIPS 180-4), as used by `hashlib.sha256` for `app_id` -/

/-- The 64 SHA-256 round constants. -/
def sha256K : List ℕ := [
  1116352408, 1899447441, 3049323471, 3921009573, 961987163, 1508970993,
  2453635748, 2870763221, 3624381080, 310598401, 607225278, 1426881987,
  1925078388, 2162078206, 2614888103, 3248222580, 3835390401, 4022224774,
  264347078, 604807628, 770255983, 1249150122, 1555081692, 1996064986,
  2554220882, 2821834349, 2952996808, 3210313671, 3336571891, 3584528711,
  113926993, 338241895, 666307205, 773529912, 1294757372, 1396182291,
  1695183700, 1986661051, 2177026350, 2456956037, 2730485921, 2820302411,
  3259730800, 3345764771, 3516065817, 3600352804, 4094571909, 275423344,
  430227734, 506948616, 659060556, 883997877, 958139571, 1322822218,
  1537002063, 1747873779, 1955562222, 2024104815, 2227730452, 2361852424,
  2428436474, 2756734187, 3204031479, 3329325298]

/-- SHA-256 padding: `0x80`, zeros to 56 mod 64, 8-byte big-endian bit length. -/
def sha256Pad (msg : List ℕ) : List ℕ :=
  let L := msg.length
  let k := (119 - L % 64) % 64
  msg ++ [0x80] ++ List.replicate k 0 ++ toBytesBE 8 (L * 8)

/-- Big-endian 32-bit words of a block. -/
def bytesToWordsBE : List ℕ → List ℕ
  | a :: b :: c :: d :: rest =>
      (16777216 * a + 65536 * b + 256 * c + d) :: bytesToWordsBE rest
  | _ => []

/-- SHA-256 message schedule extension step: word `i` given the list so far. -/
def sha256Extend (w : List ℕ) (i : ℕ) : ℕ :=
  let g := fun j => w.getD j 0
  let s0 := rotr32 (g (i - 15)) 7 ^^^ rotr32 (g (i - 15)) 18 ^^^ (g (i - 15) >>> 3)
  let s1 := rotr32 (g (i - 2)) 17 ^^^ rotr32 (g (i - 2)) 19 ^^^ (g (i - 2) >>> 10)
  w32 (g (i - 16) + s0 + g (i - 7) + s1)

/-- Full 64-word SHA-256 message schedule of one block. -/
def sha256Schedule (block : List ℕ) : List ℕ :=
  (List.range 48).foldl (fun w i => w ++ [sha256Extend w (i + 16)])
    (bytesToWordsBE block)

/-- One SHA-256 round on the 8-word state. -/
def sha256Round (w : List ℕ) (st : List ℕ) (i : ℕ) : List ℕ :=
  match st with
  | [a, b, c, d, e, f, g, h] =>
    let S1 := rotr32 e 6 ^^^ rotr32 e 11 ^^^ rotr32 e 25
    let ch := (e &&& f) ^^^ ((e ^^^ 0xffffffff) &&& g)
    let t1 := w32 (h + S1 + ch + sha256K.getD i 0 + w.getD i 0)
    let S0 := rotr32 a 2 ^^^ rotr32 a 13 ^^^ rotr32 a 22
    let mj := (a &&& b) ^^^ (a &&& c) ^^^ (b &&& c)
    let t2 := w32 (S0 + mj)
    [w32 (t1 + t2), a, b, c, w32 (d + t1), e, f, g]
  | _ => st

/-- SHA-256 compression of one 64-byte block. -/
def sha256Block (st : List ℕ) (block : List ℕ) : List ℕ :=
  let w := sha256Schedule block
  let fin := (List.range 64).foldl (sha256Round w) st
  (st.zip fin).map (fun p => w32 (p.1 + p.2))

/-- SHA-256 digest (32 bytes) of a byte message. -/
def sha256Bytes (msg : List ℕ) : List ℕ :=
  let H0 : List ℕ :=
    [1779033703, 3144134277, 1013904242, 2773480762,
     1359893119, 2600822924, 528734635, 1541459225]
  let H := (chunks64 (sha256Pad msg)).foldl sha256Block H0
  H.foldr (fun wd acc => toBytesBE 4 wd ++ acc) []

/-- Models `hashlib.sha256(...).hexdigest()`. -/
def sha256Hex (msg : List ℕ) : String := bytesHex (sha256Bytes msg)

lemma sha256_hexdigest_ref :
    sha256Hex (strBytes "[[\"CALL_TOOL\",\"t\",\x7b\"b\":1,\"a\":2\x7d,\x7b\x7d]]") =
      "b12fcd9139a72d03f8fff7f772a8d85d06056970db0c86252aec71f2ebc5ec48" := by
  decide

/-! ## Error kinds

The Python source signals errors with exceptions; the embedding tags each
raise site with the error kind the specification assigns to it:
`PermissionError` → `permissionDenied`; `RuntimeError("Quota exceeded…")` →
`quotaExceeded`; `RuntimeError("Guard failed…")` → `guardFailed`; `KeyError`
on a slot lookup → `missingInput`; `RuntimeError("Tool not found…")` →
`unknownTool`; `RuntimeError("Tool … execution failed…")` → `toolFailure`;
`ValueError`/`AttributeError` from `float(...)`/`.get` coercion →
`typeError`; `FileNotFoundError` → `fileNotFound`. -/

inductive Err
  | permissionDenied
  | quotaExceeded
  | guardFailed
  | missingInput
  | unknownTool
  | toolFailure
  | typeError
  | fileNotFound
deriving DecidableEq, Repr

/-! ## Sandbox path confinement (`runtime.ensure_under`)

`ensure_under(root, p)` runs `p = p.resolve()` and then
`str(p).startswith(str(root.resolve()))`.  Resolution is modelled lexically
(absolute paths, `.`/`..` processed, no symlinks — the model's tree is
symlink-free), and the containment test is the same plain string
`startswith` the source uses. -/

/-- Python `s.startswith(pre)` (implemented on the character lists so that
the kernel can evaluate it). -/
def strStartsWith (s pre : String) : Bool := pre.data.isPrefixOf s.data

/-- Models `str.split("/")` on the character list (n separators give n+1 groups,
empty groups included). -/
def splitSlash : List Char → List (List Char)
  | [] => [[]]
  | c :: cs =>
    match splitSlash cs with
    | [] => [[c]]
    | g :: gs => if c = '/' then [] :: g :: gs else (c :: g) :: gs

/-- Lexical resolution of the components of an absolute path:
empty and `.` components vanish, `..` removes the previous component. -/
def resolveComps (comps : List (List Char)) : List (List Char) :=
  comps.foldl
    (fun acc c =>
      if c = [] ∨ c = ['.'] then acc
      else if c = ['.', '.'] then acc.dropLast
      else acc ++ [c])
    []

/-- Models `pathlib.Path.resolve()` on a symlink-free tree, for an absolute path. -/
def resolvePath (p : String) : String :=
  String.mk ('/' :: List.intercalate ['/'] (resolveComps (splitSlash p.data)))

/-- Models `runtime.ensure_under`: resolve, then test `str(p).startswith(str(root))`;
raise `PermissionError` otherwise. -/
def ensureUnder (root p : String) : Except Err String :=
  let rp := resolvePath p
  if strStartsWith rp (resolvePath root) then .ok rp
  else .error .permissionDenied

/-! ## Capability policy (`PolicyStore` / `CapPolicy`)

The `PolicyStore` persists `{grants: {app_id: {cap: true}}}` to
`policy.json`; `CapPolicy.require` checks the session cache, then the
store / the bytecode's declared list / auto-grant mode, then prompts. -/

/-- The state of `CapPolicy` together with the persistent `PolicyStore`
grants (`storeGrants` is the on-disk `grants` table, flattened to
`(app_id, cap)` pairs). -/
structure CapState where
  allowed : List String
  appId : String
  autoYes : Bool
  granted : List String
  storeGrants : List (String × String)
deriving DecidableEq, Repr

/-- Models `PolicyStore.is_granted`. -/
def CapState.isStoreGranted (s : CapState) (cap : String) : Bool :=
  s.storeGrants.contains (s.appId, cap)

/-- Models `PolicyStore.grant` followed by `save()` (the grant is persisted). -/
def CapState.storeGrant (s : CapState) (cap : String) : CapState :=
  { s with storeGrants := (s.appId, cap) :: s.storeGrants }

/-- Models `CapPolicy.require(cap)`.  `promptYes` models the interactive
`input(...)` answer; `none` is the raised `PermissionError`. -/
def CapState.require (s : CapState) (promptYes : String → Bool)
    (cap : String) : Option CapState :=
  if s.granted.contains cap then some s
  else if s.isStoreGranted cap || s.allowed.contains cap || s.autoYes then
    -- the source updates the session cache first, then persists when the
    -- store lacks the grant; `is_granted` reads only the store, so the test
    -- is unaffected by the session-cache update
    some (if s.isStoreGranted cap then { s with granted := cap :: s.granted }
          else ({ s with granted := cap :: s.granted }).storeGrant cap)
  else if promptYes cap then
    some (({ s with granted := cap :: s.granted }).storeGrant cap)
  else none

/-! ## Quotas (`runtime.Quotas`) -/

/-- The four metered counters. -/
inductive Metric
  | ioBytes
  | filesWritten
  | cpuMs
  | modelCalls
deriving DecidableEq, Repr

/-- Usage counters plus the effective limits (store limits or defaults). -/
structure Quotas where
  ioBytes : ℕ
  filesWritten : ℕ
  cpuMs : ℕ
  modelCalls : ℕ
  limIoBytes : ℕ := 52428800
  limFilesWritten : ℕ := 100
  limCpuMs : ℕ := 30000
  limModelCalls : ℕ := 10
deriving DecidableEq, Repr

def Quotas.usage (q : Quotas) : Metric → ℕ
  | .ioBytes => q.ioBytes
  | .filesWritten => q.filesWritten
  | .cpuMs => q.cpuMs
  | .modelCalls => q.modelCalls

def Quotas.limit (q : Quotas) : Metric → ℕ
  | .ioBytes => q.limIoBytes
  | .filesWritten => q.limFilesWritten
  | .cpuMs => q.limCpuMs
  | .modelCalls => q.limModelCalls

def Quotas.setUsage (q : Quotas) (m : Metric) (v : ℕ) : Quotas :=
  match m with
  | .ioBytes => { q with ioBytes := v }
  | .filesWritten => { q with filesWritten := v }
  | .cpuMs => { q with cpuMs := v }
  | .modelCalls => { q with modelCalls := v }

/-- Models `Quotas.charge`: add, then raise `QuotaExceeded` if over the limit
(the usage increment is kept either way, as in the source). -/
def Quotas.charge (q : Quotas) (m : Metric) (amt : ℕ) : Except Err Quotas :=
  let q := q.setUsage m (q.usage m + amt)
  if q.usage m > q.limit m then .error .quotaExceeded else .ok q

/-! ## Values held in slots

Tool inputs/outputs and slot contents are arbitrary JSON-ish Python
values; the embedding covers the shapes the claims touch: numbers
(Python floats as `ℚ`), strings, tables `{"header": …, "rows": …}`, and
dictionaries. -/

inductive Value
  | null
  | num (q : ℚ)
  | str (s : String)
  | table (header : List String) (rows : List (List Value))
  | dict (fields : List (String × Value))

/-- Digit characters to the natural number they denote. -/
def digitsToNat (cs : List Char) : ℕ :=
  cs.foldl (fun n c => 10 * n + (c.toNat - 48)) 0

/-- The unsigned part of Python `float(x)` on a decimal string: digits with
at most one `.` and at least one digit. -/
def parseUnsigned (cs : List Char) : Option ℚ :=
  let intPart := cs.takeWhile Char.isDigit
  match cs.dropWhile Char.isDigit with
  | [] =>
    if intPart = [] then none else some (digitsToNat intPart : ℚ)
  | '.' :: frac =>
    if frac.all Char.isDigit && !(intPart = [] && frac = []) then
      some ((digitsToNat intPart : ℚ) +
        (digitsToNat frac : ℚ) / ((10 : ℚ) ^ frac.length))
    else none
  | _ => none

/-- Python `float(x)` on a decimal string: optional sign, digits, optional
fractional part (exponent forms, `inf`/`nan` and whitespace are outside the
model's scope).  `none` is the raised `ValueError`. -/
def parseDecimal (s : String) : Option ℚ :=
  match s.data with
  | '-' :: rest => (parseUnsigned rest).map (fun q => -q)
  | '+' :: rest => parseUnsigned rest
  | cs => parseUnsigned cs

/-- Python `float(v)` on a slot-field value: numbers pass through, numeric
strings parse, anything else raises (`ValueError` / `TypeError`). -/
def floatOf : Value → Option ℚ
  | .num q => some q
  | .str s => parseDecimal s
  | _ => none

/-! ## Deterministic split (`tools/data/split/impl.py`, VM `SPLIT` branch)

Both sites run the same algorithm: row `i` goes to train iff
`md5(f"{i}:{seed}").digest()[0] / 255.0 < ratio`, then, if validation is
empty and train has more than one row, the last train row is popped into
validation. -/

/-- First byte of `hashlib.md5(f"{i}:{seed}".encode()).digest()`. -/
def md5FirstByte (i : ℕ) (seed : ℤ) : ℕ :=
  (md5Bytes (strBytes (toString i ++ ":" ++ toString seed))).headD 0

/-- The enumeration loop of the split (index `i` counts from the first
argument), returning `(train_rows, val_rows)` in input order. -/
def splitLoop (ratio : ℚ) (seed : ℤ) : ℕ → List α → List α × List α
  | _, [] => ([], [])
  | i, r :: rs =>
    let p := splitLoop ratio seed (i + 1) rs
    if (md5FirstByte i seed : ℚ) / 255 < ratio then (r :: p.1, p.2)
    else (p.1, r :: p.2)

/-- Models `split.execute` / the VM `SPLIT` branch on the row list: the loop, then
`if len(val_rows) == 0 and len(train_rows) > 1: val_rows.append(train_rows.pop())`. -/
def splitRows (ratio : ℚ) (seed : ℤ) (rows : List α) : List α × List α :=
  let p := splitLoop ratio seed 0 rows
  if p.2.isEmpty ∧ 1 < p.1.length then
    (p.1.dropLast, p.2 ++ p.1.getLast?.toList)
  else p

/-! ## Guard thresholds and guard lowering (`compile_bc.lower_guard`)

Guard thresholds are Python floats, one of which is `float("-inf")`;
finite floats are modelled as rationals. -/

/-- A Python float that is either finite or `-inf`. -/
inductive PFloat
  | ninf
  | fin (q : ℚ)
deriving DecidableEq, Repr

/-- Python `val >= thr` on such floats (`-inf >= -inf` is `True`). -/
def PFloat.geB : PFloat → PFloat → Bool
  | _, .ninf => true
  | .ninf, .fin _ => false
  | .fin a, .fin b => b ≤ a

/-- The guard comparison operator matched out of `cond` by the `COND`
regular expression. -/
inductive GuardOp
  | ge
  | gt
  | lt
  | le
  | eq
deriving DecidableEq, Repr

/-- The VM-fragment instruction set the claims exercise.  `CALL_TOOL`
carries the inputs map (port → slot-reference string or literal) and the
outputs map (port → slot). -/
inductive Instr
  | readCSV (path : String) (outSlot : String)
  | callTool (name : String) (inputs : List (String × Value))
      (outputs : List (String × String))
  | assertGE (slot field : String) (thr : PFloat)

/-- Models `compile_bc.lower_guard` after the `COND` match and the `Symtab`
slot resolution: `>=` keeps the threshold, `>` adds `1e-12`, and `<`, `<=`,
`==` emit the `float("-inf")` placeholder threshold. -/
def lowerGuard (op : GuardOp) (slot field : String) (rhs : ℚ) : Instr :=
  match op with
  | .ge => .assertGE slot field (.fin rhs)
  | .gt => .assertGE slot field (.fin (rhs + 1 / 1000000000000))
  | .lt | .le | .eq => .assertGE slot field .ninf

/-! ## Transaction log records (`TxLogger.write` payloads)

`ts`, `dry_run` and `run_id` are added uniformly by `TxLogger.write`; the
embedding keeps the per-op payload (the VM writes all records of one run
under one `run_id`, modelled at the `undo` level by `LogLine`). -/

inductive TxRec
  | runStart
  | runEnd
  | readCSV (path : String) (rows : ℕ)
  | writeFile (path : String) (preExists created : Bool)
  | writeJson (path : String) (preExists created : Bool)
  | makeDir (path : String) (preExists created : Bool)
  | zipRec (src dest : String) (preExists created : Bool)
  | assertGE (field : String) (value thr : PFloat) (ok : Bool)
  | writeChecksums (path : String) (count : ℕ)
deriving DecidableEq, Repr

/-! ## The VM fragment

State of a `VM` mid-run.  The filesystem is modelled as a read side
(`fs`: CSV files by path, already parsed, with their byte size) and a
write side (`written`: paths the run created).  `opened` records every
path actually opened for reading, so "no file opened" is provable. -/

/-- A CSV file on disk: `stat().st_size` plus the parsed table
(`csv.reader` + `_coerce_row` are outside the claims' scope, so contents
are carried in parsed form). -/
structure CsvFile where
  size : ℕ
  header : List String
  rows : List (List Value)

/-- A registered tool: the manifest's declared capability set and the
`execute(inputs, context)` implementation (pure in the model; `.error` is
a raised exception inside the tool). -/
structure Tool where
  capabilities : List String
  execute : List (String × Value) → Except String (List (String × Value))

/-- The tool registry, as discovered from manifests. -/
def Registry := List (String × Tool)

structure VMState where
  mem : List (String × Value)
  txlog : List TxRec
  caps : CapState
  quotas : Quotas
  fs : List (String × CsvFile)
  opened : List String
  written : List String

/-- Python dict assignment `m[k] = v` (replace in place, or append). -/
def setKey (m : List (String × Value)) (k : String) (v : Value) :
    List (String × Value) :=
  if m.any (fun p => p.1 == k) then
    m.map (fun p => if p.1 == k then (k, v) else p)
  else m ++ [(k, v)]

/-- Models `VM._fs_read_csv`: capability check, sandbox check, quota charge,
open + parse, then the `READ_CSV` log entry.  Returns the table value. -/
def fsReadCSV (root : String) (promptYes : String → Bool) (path : String)
    (st : VMState) : VMState × Except Err Value :=
  match st.caps.require promptYes "fs.read" with
  | none => (st, .error .permissionDenied)
  | some caps =>
    let st := { st with caps := caps }
    match ensureUnder root path with
    | .error e => (st, .error e)
    | .ok p =>
      let size := ((st.fs.lookup p).map CsvFile.size).getD 0
      match st.quotas.charge .ioBytes size with
      | .error e => (st, .error e)
      | .ok quotas =>
        let st := { st with quotas := quotas }
        match st.fs.lookup p with
        | none => (st, .error .fileNotFound)
        | some fd =>
          let st := { st with opened := st.opened ++ [p] }
          let st := { st with txlog := st.txlog ++ [.readCSV p fd.rows.length] }
          (st, .ok (.table fd.header fd.rows))

/-- The `CALL_TOOL` input-resolution loop: a string value starting with
`"S"` is dereferenced through the slot map (`self.mem[value]`, whose
`KeyError` is the MissingInput failure); anything else passes through. -/
def resolveInputs (mem : List (String × Value)) :
    List (String × Value) → Except Err (List (String × Value))
  | [] => .ok []
  | (k, v) :: rest => do
    let rv ← match v with
      | .str s =>
        if strStartsWith s "S" then
          match mem.lookup s with
          | some mv => pure mv
          | none => Except.error Err.missingInput
        else pure (Value.str s)
      | other => pure other
    let rs ← resolveInputs mem rest
    pure ((k, rv) :: rs)

/-- The `CALL_TOOL` output-storing loop: each declared output port is
stored only when the tool's result map contains it (`if key in result`). -/
def storeOutputs (result : List (String × Value))
    (outs : List (String × String)) (mem : List (String × Value)) :
    List (String × Value) :=
  outs.foldl
    (fun m kv =>
      match result.lookup kv.1 with
      | some v => setKey m kv.2 v
      | none => m)
    mem

/-- One step of `VM.run` dispatch, for the embedded fragment.  Returns the
post-step state (effects performed before a raise are kept, as they are in
the source, where the log file is appended eagerly) and the error if the
step raised. -/
def execInstr (reg : Registry) (root : String) (promptYes : String → Bool)
    (ins : Instr) (st : VMState) : VMState × Option Err :=
  match ins with
  | .callTool name inputs outputs =>
    -- NOTE: no capability check occurs on this path in the source.
    match resolveInputs st.mem inputs with
    | .error e => (st, some e)
    | .ok resolved =>
      match reg.lookup name with
      | none => (st, some .unknownTool)
      | some tool =>
        match tool.execute resolved with
        | .error _ => (st, some .toolFailure)
        | .ok result =>
          let st := { st with mem := storeOutputs result outputs st.mem }
          match st.quotas.charge .cpuMs 10 with
          | .error e => (st, some e)
          | .ok quotas => ({ st with quotas := quotas }, none)
  | .readCSV path outSlot =>
    match fsReadCSV root promptYes path st with
    | (st, .error e) => (st, some e)
    | (st, .ok v) => ({ st with mem := setKey st.mem outSlot v }, none)
  | .assertGE slot field thr =>
    match st.mem.lookup slot with
    | none => (st, some .missingInput)
    | some (.dict fields) =>
      let val? : Option PFloat :=
        match fields.lookup field with
        | none => some .ninf
        | some fv => (floatOf fv).map .fin
      match val? with
      | none => (st, some .typeError)
      | some val =>
        let ok := val.geB thr
        let st := { st with txlog := st.txlog ++ [.assertGE field val thr ok] }
        if ok then (st, none) else (st, some .guardFailed)
    | some _ => (st, some .typeError)

/-- The instruction loop of `VM.run` (after the `RUN_START` record): stop
at the first raise, else fall through. -/
def runSteps (reg : Registry) (root : String) (promptYes : String → Bool) :
    List Instr → VMState → VMState × Option Err
  | [], st => (st, none)
  | ins :: rest, st =>
    match execInstr reg root promptYes ins st with
    | (st, some e) => (st, some e)
    | (st, none) => runSteps reg root promptYes rest st

/-- Models `VM.run` on the embedded fragment: write `RUN_START`, execute the
program, and on successful fall-through write `RUN_END` (the post-run
checksum walk is modelled at the undo/TxLog level).  An escaping error is
returned alongside the state whose log and effects were already
performed. -/
def runProg (reg : Registry) (root : String) (promptYes : String → Bool)
    (prog : List Instr) (st : VMState) : VMState × Option Err :=
  let st := { st with txlog := st.txlog ++ [.runStart] }
  match runSteps reg root promptYes prog st with
  | (st, some e) => (st, some e)
  | (st, none) => ({ st with txlog := st.txlog ++ [.runEnd] }, none)

/-- Models `VM._fs_write_text`: capability check, sandbox check, pre-existence
probe, quota charges, then (when not dry) the write, then the `WRITE_FILE`
log entry.  The post-write hash is outside the model (the record keeps the
`pre_exists`/`created` flags the claims are about). -/
def fsWriteText (root : String) (promptYes : String → Bool) (dry : Bool)
    (path text : String) (st : VMState) : VMState × Option Err :=
  match st.caps.require promptYes "fs.write" with
  | none => (st, some .permissionDenied)
  | some caps =>
    let st := { st with caps := caps }
    match ensureUnder root path with
    | .error e => (st, some e)
    | .ok p =>
      let pre := st.written.contains p || (st.fs.lookup p).isSome
      match st.quotas.charge .ioBytes (strBytes text).length with
      | .error e => (st, some e)
      | .ok q1 =>
        let st := { st with quotas := q1 }
        match (if pre then .ok q1 else q1.charge .filesWritten 1 :
            Except Err Quotas) with
        | .error e => (st, some e)
        | .ok q2 =>
          let st := { st with quotas := q2 }
          let st := if dry then st else { st with written := st.written ++ [p] }
          ({ st with txlog := st.txlog ++ [.writeFile p pre (!pre)] }, none)

/-! ## App identity (`VM.__init__`)

`app_id = sha256(json.dumps(program, separators=(",", ":")).encode()).hexdigest()[:12]`.
The bytecode program is a list of instructions; an instruction is a list
whose elements are strings, integers, or flat maps from port names to
strings/integers (the shapes `compile_bc` emits). -/

/-- A scalar bytecode operand. -/
inductive BCScalar
  | str (s : String)
  | num (n : ℤ)
deriving DecidableEq, Repr

/-- A bytecode operand: a scalar or a flat map (insertion-ordered). -/
inductive BCOperand
  | scalar (v : BCScalar)
  | obj (fields : List (String × BCScalar))
deriving DecidableEq, Repr

/-- A bytecode program: a list of instructions, each a list of operands. -/
abbrev BCProgram := List (List BCOperand)

/-- One character inside a JSON string, as `json.dumps` (default
`ensure_ascii=True`) renders it; code points above `0xFFFF` are outside
the model's scope. -/
def jsonEscapeChar (c : Char) : String :=
  if c = '"' then "\\\""
  else if c = '\\' then "\\\\"
  else if c = '\n' then "\\n"
  else if c = '\t' then "\\t"
  else if c = '\r' then "\\r"
  else if c = '\x08' then "\\b"
  else if c = '\x0c' then "\\f"
  else if c.toNat < 0x20 || 0x7e < c.toNat then
    "\\u" ++ String.mk [hexDigit (c.toNat / 4096 % 16), hexDigit (c.toNat / 256 % 16),
      hexDigit (c.toNat / 16 % 16), hexDigit (c.toNat % 16)]
  else String.mk [c]

/-- Models `json.dumps` of a string. -/
def dumpsStr (s : String) : String :=
  "\"" ++ s.data.foldr (fun c acc => jsonEscapeChar c ++ acc) "" ++ "\""

/-- Models `json.dumps` of a scalar. -/
def dumpsScalar : BCScalar → String
  | .str s => dumpsStr s
  | .num n => toString n

/-- Models `",".join(...)` (kernel-evaluable). -/
def strIntercalate (sep : String) : List String → String
  | [] => ""
  | [x] => x
  | x :: xs => x ++ sep ++ strIntercalate sep xs

/-- Models `json.dumps` of a flat map with `separators=(",", ":")`, keys in
insertion order (no `sort_keys`). -/
def dumpsObj (fields : List (String × BCScalar)) : String :=
  "\x7b" ++
    strIntercalate ","
      (fields.map (fun kv => dumpsStr kv.1 ++ ":" ++ dumpsScalar kv.2)) ++
  "\x7d"

def dumpsOperand : BCOperand → String
  | .scalar v => dumpsScalar v
  | .obj fields => dumpsObj fields

def dumpsInstrList (ops : List BCOperand) : String :=
  "[" ++ strIntercalate "," (ops.map dumpsOperand) ++ "]"

/-- Models `json.dumps(program, separators=(",", ":"))`. -/
def dumpsProgram (p : BCProgram) : String :=
  "[" ++ strIntercalate "," (p.map dumpsInstrList) ++ "]"

/-- Lexicographic code-point comparison of character lists — Python's
`str.__lt__`, which `sorted` (and so `sort_keys=True`) uses. -/
def charListLt : List Char → List Char → Bool
  | [], [] => false
  | [], _ :: _ => true
  | _ :: _, [] => false
  | a :: as, b :: bs =>
    if a.toNat < b.toNat then true
    else if b.toNat < a.toNat then false
    else charListLt as bs

/-- Python `a < b` on strings. -/
def strLt (a b : String) : Bool := charListLt a.data b.data

/-- Stable insertion of a field into a key-sorted field list, comparing
keys exactly as Python's sort does. -/
def insertField (kv : String × BCScalar) :
    List (String × BCScalar) → List (String × BCScalar)
  | [] => [kv]
  | x :: xs =>
    if strLt x.1 kv.1 then x :: insertField kv xs else kv :: x :: xs

/-- Sorting a field list by key (what `sort_keys=True` does to one map). -/
def sortFields : List (String × BCScalar) → List (String × BCScalar)
  | [] => []
  | kv :: rest => insertField kv (sortFields rest)

/-- An operand with every map's keys sorted. -/
def canonOperand : BCOperand → BCOperand
  | .scalar v => .scalar v
  | .obj fields => .obj (sortFields fields)

/-- The program as `json.dumps(..., sort_keys=True)` would serialize it. -/
def canonProgram (p : BCProgram) : BCProgram :=
  p.map (List.map canonOperand)

/-- Models `json.dumps(program, sort_keys=True, separators=(",", ":"))` — the
spec's canonical JSON encoding. -/
def dumpsCanonical (p : BCProgram) : String :=
  dumpsProgram (canonProgram p)

/-- The `app_id` computed at `VM.__init__`:
`sha256(json.dumps(program, separators=(",", ":")).encode()).hexdigest()[:12]`
— note: no `sort_keys`. -/
def appId (p : BCProgram) : String :=
  String.mk ((sha256Hex (strBytes (dumpsProgram p))).data.take 12)

/-- Modelled from the spec: the app id as §4.5 defines it,
`sha256(canonical_json(program))[0:12]` with canonical JSON = sorted keys,
compact separators, UTF-8. -/
def specCanonicalAppId (p : BCProgram) : String :=
  String.mk ((sha256Hex (strBytes (dumpsCanonical p))).data.take 12)

/-! ## Undo (`undo.undo_last_run`)

The TxLog on disk is a list of records, each carrying its `run_id`; undo
takes the `run_id` of the most recent `RUN_START`, collects that run's
created paths in order, and deletes them in reverse. -/

/-- One parsed line of `logs/tx.jsonl`. -/
structure LogLine where
  runId : String
  entry : TxRec
deriving DecidableEq, Repr

/-- The `run_id` of the last `RUN_START` record (scanning from the end). -/
def lastRunId (recs : List LogLine) : Option String :=
  (recs.reverse.find? (fun l => l.entry = .runStart)).map LogLine.runId

/-- The paths one record contributes to the undo list: `WRITE_FILE`,
`WRITE_JSON`, `ZIP` and `MAKE_DIR` records contribute their path iff their
`created` flag is true; `WRITE_CHECKSUMS` records contribute their path
unconditionally. -/
def recCreatedPaths : TxRec → List String
  | .writeFile p _ c => if c then [p] else []
  | .writeJson p _ c => if c then [p] else []
  | .zipRec _ d _ c => if c then [d] else []
  | .makeDir p _ c => if c then [p] else []
  | .writeChecksums p _ => [p]
  | _ => []

/-- The created-path collection loop of `undo_last_run`, in log order. -/
def collectCreated (rid : String) : List LogLine → List String
  | [] => []
  | l :: rest =>
    (if l.runId = rid then recCreatedPaths l.entry else []) ++
      collectCreated rid rest

/-- Modelled from the spec: the paths one record carries with
`created=true` (`WRITE_CHECKSUMS` records have no `created` field, so they
contribute nothing here). -/
def specRecCreated : TxRec → List String
  | .writeFile p _ true => [p]
  | .writeJson p _ true => [p]
  | .zipRec _ d _ true => [d]
  | .makeDir p _ true => [p]
  | _ => []

/-- Modelled from the spec: the set the claim speaks about — the paths
recorded with `created=true` in the run's TxLog entries. -/
def specCreatedTrue (rid : String) : List LogLine → List String
  | [] => []
  | l :: rest =>
    (if l.runId = rid then specRecCreated l.entry else []) ++
      specCreatedTrue rid rest

/-- The filesystem as undo sees it: the files and directories that exist. -/
structure Fs where
  files : List String
  dirs : List String
deriving DecidableEq, Repr

/-- Models `os.rmdir` succeeds only on an empty directory: nothing exists
strictly below `d`. -/
def Fs.isEmptyDir (fs : Fs) (d : String) : Bool :=
  !(fs.files ++ fs.dirs).any (fun p => strStartsWith p (d ++ "/"))

/-- One iteration of the deletion loop: resolve, `unlink` a file, `rmdir`
an empty directory, skip everything else.  The second component
accumulates the paths actually removed. -/
def undoStep (acc : Fs × List String) (p0 : String) : Fs × List String :=
  if acc.1.files.contains (resolvePath p0) then
    ({ acc.1 with files := acc.1.files.erase (resolvePath p0) },
      acc.2 ++ [resolvePath p0])
  else if acc.1.dirs.contains (resolvePath p0) then
    if acc.1.isEmptyDir (resolvePath p0) then
      ({ acc.1 with dirs := acc.1.dirs.erase (resolvePath p0) },
        acc.2 ++ [resolvePath p0])
    else acc
  else acc

/-- Models `undo_last_run`: collect the last run's created paths and process them
in reverse order; returns the final filesystem and the removed paths. -/
def undoLastRun (recs : List LogLine) (fs : Fs) : Fs × List String :=
  match lastRunId recs with
  | none => (fs, [])
  | some rid => (collectCreated rid recs).reverse.foldl undoStep (fs, [])

/-! ## Derived notions used by the theorems -/

/-- Session-grant/store coherence: every capability in the in-session
`granted` cache is persisted in the store under the current app id.  It
holds of a fresh `CapPolicy` (empty `granted`) and is preserved by
`require`. -/
def CapInv (s : CapState) : Prop :=
  ∀ c ∈ s.granted, (s.appId, c) ∈ s.storeGrants

/-- A sequence of `require` checks, as one run performs them. -/
def requireSeq (promptYes : String → Bool) :
    List String → CapState → Option CapState
  | [], s => some s
  | cap :: caps, s =>
    match s.require promptYes cap with
    | none => none
    | some s => requireSeq promptYes caps s

/-- A field list whose keys are in strictly increasing order (what
`sort_keys=True` leaves unchanged). -/
abbrev FieldsSortedLt (fields : List (String × BCScalar)) : Prop :=
  List.Pairwise (fun a b => strLt a.1 b.1 = true) fields

/-- An operand whose map (if any) already has sorted keys. -/
def OperandSorted : BCOperand → Prop
  | .scalar _ => True
  | .obj fields => FieldsSortedLt fields

instance (op : BCOperand) : Decidable (OperandSorted op) :=
  match op with
  | .scalar _ => isTrue trivial
  | .obj fields =>
    inferInstanceAs
      (Decidable (List.Pairwise
        (fun (a b : String × BCScalar) => strLt a.1 b.1 = true) fields))

/-- A program all of whose map operands already have sorted keys. -/
abbrev ProgramSorted (p : BCProgram) : Prop :=
  ∀ ins ∈ p, ∀ op ∈ ins, OperandSorted op

/-! ## Concrete fixtures used by witnesses and counterexamples -/

/-- A capability state with nothing granted or declared, auto-grant off. -/
def capsNone : CapState :=
  { allowed := [], appId := "a", autoYes := false, granted := [],
    storeGrants := [] }

/-- A capability state whose bytecode declares only `fs.read`. -/
def capsRead : CapState := { capsNone with allowed := ["fs.read"] }

/-- Fresh quota counters (default limits). -/
def q0 : Quotas := { ioBytes := 0, filesWritten := 0, cpuMs := 0,
                     modelCalls := 0 }

/-- A fresh VM state: no slots, no log, no grants, empty sandbox. -/
def stEmpty : VMState :=
  { mem := [], txlog := [], caps := capsNone, quotas := q0, fs := [],
    opened := [], written := [] }

/-- A one-entry registry: a tool that declares `fs.write` and returns a
marker output. -/
def regWriter : Registry :=
  [("writer", { capabilities := ["fs.write"],
                execute := fun _ => .ok [("out", .str "tool ran")] })]

/-- A one-entry registry: a tool that declares the single output port
`declared` but produces only the undeclared port `extra`. -/
def regNoOutput : Registry :=
  [("skipper", { capabilities := [],
                      execute := fun _ => .ok [("extra", .num 1)] })]

/-- A capability state whose bytecode declares only `fs.write`. -/
def capsWrite : CapState := { capsNone with allowed := ["fs.write"] }

/-- Models `capsRead` after a successful `require "fs.read"` (grant persisted). -/
def capsReadGranted : CapState :=
  { capsRead with granted := ["fs.read"], storeGrants := [("a", "fs.read")] }

/-- Models `capsWrite` after a successful `require "fs.write"`. -/
def capsWriteGranted : CapState :=
  { capsWrite with
    granted := ["fs.write"]
    storeGrants := [("a", "fs.write")] }

/-- A VM state for the sandbox-escape scenario: `fs.read` declared, and
`/etc/passwd` exists outside the sandbox. -/
def stEscape : VMState :=
  { stEmpty with
    caps := capsRead
    fs := [("/etc/passwd", { size := 100, header := ["line"], rows := [] })] }

/-- A TxLog for the checksum scenario: one run `r1` that wrote only the
checksum manifest (`WRITE_CHECKSUMS` carries no `created` flag). -/
def logsC7 : List LogLine :=
  [{ runId := "r1", entry := .runStart },
   { runId := "r1", entry := .writeChecksums "/s/out/checksums.json" 0 },
   { runId := "r1", entry := .runEnd }]

/-- The filesystem at undo time for the checksum scenario: the manifest
exists as a file. -/
def fsC7 : Fs := { files := ["/s/out/checksums.json"], dirs := [] }

/-- A one-instruction program whose `CALL_TOOL` inputs map has keys in
non-sorted insertion order. -/
def progC8 : BCProgram :=
  [[.scalar (.str "CALL_TOOL"), .scalar (.str "t"),
    .obj [("b", .num 1), ("a", .num 2)], .obj []]]

/-- The same program with the map keys already sorted. -/
def progC8sorted : BCProgram :=
  [[.scalar (.str "CALL_TOOL"), .scalar (.str "t"),
    .obj [("a", .num 2), ("b", .num 1)], .obj []]]

/- ------------------------------------------------------------------ -/
/-! # Theorems -/

/-! ## C10: every successful `require` persists a grant -/

lemma require_fields_eq {s s' : CapState} {promptYes : String → Bool}
    {cap : String} (h : s.require promptYes cap = some s') :
    s'.appId = s.appId ∧ s'.autoYes = s.autoYes ∧
      (∀ g ∈ s.storeGrants, g ∈ s'.storeGrants) ∧
      (∀ c ∈ s'.granted, c = cap ∨ c ∈ s.granted) := by
  unfold CapState.require at h
  split at h
  · cases h; exact ⟨rfl, rfl, fun g hg => hg, fun c hc => Or.inr hc⟩
  · split at h
    · split at h <;> cases h
      · exact ⟨rfl, rfl, fun g hg => hg,
          fun c hc => (List.mem_cons.mp hc).imp id id⟩
      · exact ⟨rfl, rfl, fun g hg => List.mem_cons_of_mem _ hg,
          fun c hc => (List.mem_cons.mp hc).imp id id⟩
    · split at h
      · cases h
        exact ⟨rfl, rfl, fun g hg => List.mem_cons_of_mem _ hg,
          fun c hc => (List.mem_cons.mp hc).imp id id⟩
      · cases h

lemma require_persists {s s' : CapState} {promptYes : String → Bool}
    {cap : String} (hinv : CapInv s)
    (h : s.require promptYes cap = some s') :
    (s'.appId, cap) ∈ s'.storeGrants := by
  have hfe := require_fields_eq h
  unfold CapState.require at h
  split at h
  · cases h
    rename_i hg
    exact hinv cap (List.elem_iff.mp hg)
  · split at h
    · split at h <;> cases h
      · rename_i hstore
        exact List.elem_iff.mp hstore
      · exact List.mem_cons_self _ _
    · split at h
      · cases h
        exact List.mem_cons_self _ _
      · cases h

lemma require_preserves_inv {s s' : CapState} {promptYes : String → Bool}
    {cap : String} (hinv : CapInv s)
    (h : s.require promptYes cap = some s') : CapInv s' := by
  intro c hc
  rcases (require_fields_eq h).2.2.2 c hc with rfl | hc'
  · exact require_persists hinv h
  · rw [(require_fields_eq h).1]
    exact (require_fields_eq h).2.2.1 _ (hinv c hc')

lemma require_succeeds_of_autoYes {s : CapState} {promptYes : String → Bool}
    {cap : String} (hauto : s.autoYes = true) :
    ∃ s', s.require promptYes cap = some s' := by
  by_cases h1 : s.granted.contains cap = true
  · exact ⟨s, by unfold CapState.require; rw [if_pos h1]⟩
  · have h2 : (s.isStoreGranted cap || s.allowed.contains cap || s.autoYes)
        = true := by rw [hauto]; simp
    exact ⟨_, by unfold CapState.require; rw [if_neg h1, if_pos h2]⟩

lemma requireSeq_preserves_store {promptYes : String → Bool} :
    ∀ (caps : List String) (s s' : CapState),
      requireSeq promptYes caps s = some s' →
      ∀ g ∈ s.storeGrants, g ∈ s'.storeGrants := by
  intro caps
  induction caps with
  | nil => intro s s' h g hg; cases h; exact hg
  | cons cap rest ih =>
    intro s s' h g hg
    unfold requireSeq at h
    cases h1 : s.require promptYes cap with
    | none => rw [h1] at h; cases h
    | some s1 =>
      rw [h1] at h
      exact ih s1 s' h g ((require_fields_eq h1).2.2.1 g hg)

/-- C10. After every successful `CapPolicy.require(cap)` — in
particular when the check passed via the bytecode's declared capability
list or auto-grant mode — the `PolicyStore` records a persistent grant of
`cap` for the current `app_id`; and a run in auto-grant mode widens the
persisted grants of that `app_id` to every capability it checked. -/
theorem require_persists_store_grant :
    (∀ (s s' : CapState) (promptYes : String → Bool) (cap : String),
       CapInv s → s.require promptYes cap = some s' →
       (s'.appId, cap) ∈ s'.storeGrants ∧ CapInv s' ∧ s'.appId = s.appId) ∧
    (∀ (s : CapState) (promptYes : String → Bool) (caps : List String)
       (s' : CapState),
       CapInv s → s.autoYes = true →
       requireSeq promptYes caps s = some s' →
       ∀ c ∈ caps, (s.appId, c) ∈ s'.storeGrants) := by
  constructor
  · intro s s' promptYes cap hinv h
    exact ⟨require_persists hinv h, require_preserves_inv hinv h,
      (require_fields_eq h).1⟩
  · intro s promptYes caps
    induction caps generalizing s with
    | nil => intro s' _ _ _ c hc; cases hc
    | cons cap rest ih =>
      intro s' hinv hauto hseq c hc
      unfold requireSeq at hseq
      obtain ⟨s1, hs1⟩ := @require_succeeds_of_autoYes s promptYes cap hauto
      rw [hs1] at hseq
      have hfe := require_fields_eq hs1
      have hinv1 := require_preserves_inv hinv hs1
      rcases List.mem_cons.mp hc with rfl | hc
      · have hmem : (s.appId, c) ∈ s1.storeGrants := by
          rw [← hfe.1]; exact require_persists hinv hs1
        exact requireSeq_preserves_store rest s1 s' hseq _ hmem
      · exact hfe.1 ▸ ih s1 s' hinv1 (hfe.2.1 ▸ hauto) hseq c hc

/-- C10 witness. A concrete fresh policy in auto-grant mode: checking
`fs.write` (granted neither in the store nor on the declared list)
succeeds and persists the grant for the app id. -/
theorem require_persists_store_grant_witness :
    ({ allowed := [], appId := "a1b2c3d4e5f6", autoYes := true,
       granted := [], storeGrants := [] } : CapState).require (fun _ => false)
        "fs.write" =
      some { allowed := [], appId := "a1b2c3d4e5f6", autoYes := true,
             granted := ["fs.write"],
             storeGrants := [("a1b2c3d4e5f6", "fs.write")] } ∧
    ("a1b2c3d4e5f6", "fs.write") ∈
      ({ allowed := [], appId := "a1b2c3d4e5f6", autoYes := true,
         granted := ["fs.write"],
         storeGrants := [("a1b2c3d4e5f6", "fs.write")] } : CapState).storeGrants := by
  refine ⟨rfl, ?_⟩
  exact (require_persists_store_grant.1
    { allowed := [], appId := "a1b2c3d4e5f6", autoYes := true,
      granted := [], storeGrants := [] }
    { allowed := [], appId := "a1b2c3d4e5f6", autoYes := true,
      granted := ["fs.write"],
      storeGrants := [("a1b2c3d4e5f6", "fs.write")] }
    (fun _ => false) "fs.write" (fun c hc => nomatch hc) rfl).1

/-! ## C9: a guard on an unwritten slot fails with MissingInput -/

/-- C9. Executing `ASSERT_GE` whose slot was never written fails with
`MissingInput` (the `KeyError` of `self.mem[slot]`), not `GuardFailed`;
no log entry is produced and the state is unchanged. -/
theorem assertGE_unwritten_slot_missingInput
    (reg : Registry) (root : String) (promptYes : String → Bool)
    (slot field : String) (thr : PFloat) (st : VMState)
    (h : st.mem.lookup slot = none) :
    execInstr reg root promptYes (.assertGE slot field thr) st =
      (st, some .missingInput) := by
  simp only [execInstr, h]

/-- C9 witness. A fresh VM state with an empty slot map: the guard
`ASSERT_GE S0 R2 0.6` fails with `MissingInput`. -/
theorem assertGE_unwritten_slot_missingInput_witness :
    execInstr [] "/sandbox" (fun _ => false)
        (.assertGE "S0" "R2" (.fin (6 / 10))) stEmpty =
      (stEmpty, some .missingInput) :=
  assertGE_unwritten_slot_missingInput [] "/sandbox" (fun _ => false)
    "S0" "R2" (.fin (6 / 10)) stEmpty rfl

/-! ## C5: guard lowering -/

lemma geB_ninf (v : PFloat) : v.geB .ninf = true := by
  cases v <;> rfl

/-- C5 counterexample. The claim says the `-∞`-threshold instruction
"succeeds at runtime for every value of the field"; but the runtime coerces
the field value with `float(...)`, so a written slot whose field holds the
non-numeric string `"abc"` raises a `ValueError` (a `typeError` failure,
not a success) even though the threshold is `-∞`. -/
theorem lowerGuard_ninf_not_always_succeeds :
    lowerGuard .lt "S0" "f" (6 / 10) = .assertGE "S0" "f" .ninf ∧
    (execInstr [] "/sandbox" (fun _ => false) (.assertGE "S0" "f" .ninf)
        { stEmpty with mem := [("S0", .dict [("f", .str "abc")])] }).2 =
      some .typeError := ⟨rfl, by decide⟩

/-- C5 (amended). Guard lowering maps `$slot.field >= N` to
`ASSERT_GE(slot, field, N)` and `$slot.field > N` to
`ASSERT_GE(slot, field, N + ε)` with `ε = 1e-12 > 0`, while `<`, `<=`,
`==` lower to `ASSERT_GE(slot, field, -∞)`; the `-∞` instruction succeeds
at runtime for every value of the field that is absent or numerically
coercible (a non-coercible value raises a coercion error instead). -/
theorem lowerGuard_spec :
    (∀ slot field rhs, lowerGuard .ge slot field rhs =
      .assertGE slot field (.fin rhs)) ∧
    (∀ slot field rhs, lowerGuard .gt slot field rhs =
        .assertGE slot field (.fin (rhs + 1 / 1000000000000)) ∧
      rhs < rhs + 1 / 1000000000000) ∧
    (∀ op, (op = GuardOp.lt ∨ op = .le ∨ op = .eq) →
      ∀ slot field rhs, lowerGuard op slot field rhs =
        .assertGE slot field .ninf) ∧
    (∀ (reg : Registry) (root : String) (promptYes : String → Bool)
       (slot field : String) (st : VMState)
       (fields : List (String × Value)),
       st.mem.lookup slot = some (.dict fields) →
       (∀ v, fields.lookup field = some v → floatOf v ≠ none) →
       (execInstr reg root promptYes (.assertGE slot field .ninf) st).2 =
         none) := by
  refine ⟨fun _ _ _ => rfl,
    fun _ _ rhs => ⟨rfl, by linarith⟩,
    fun op hop _ _ _ => by rcases hop with rfl | rfl | rfl <;> rfl,
    ?_⟩
  intro reg root promptYes slot field st fields hmem hco
  simp only [execInstr, hmem]
  cases hf : fields.lookup field with
  | none => simp [geB_ninf]
  | some v =>
    cases hfo : floatOf v with
    | none => exact absurd hfo (hco v hf)
    | some q => simp [hfo, geB_ninf]

/-- C5 witness. The lowering of `>=` on `$metrics.R2 >= 0.6`, and a
`-∞` guard succeeding on a written slot whose field holds `0.3`. -/
theorem lowerGuard_spec_witness :
    lowerGuard .ge "S0" "R2" (6 / 10) = .assertGE "S0" "R2" (.fin (6 / 10)) ∧
    (execInstr [] "/sandbox" (fun _ => false) (.assertGE "S0" "R2" .ninf)
        { stEmpty with mem := [("S0", .dict [("R2", .num (3 / 10))])] }).2 =
      none := by
  refine ⟨lowerGuard_spec.1 "S0" "R2" (6 / 10), ?_⟩
  exact lowerGuard_spec.2.2.2 [] "/sandbox" (fun _ => false) "S0" "R2" _
    [("R2", .num (3 / 10))] rfl
    (fun v hv => by cases hv; simp [floatOf])

/-! ## C2: no capability check before tool dispatch -/

/-- C2 counterexample. A VM state with *no* grants (empty store, empty
declared list, auto-grant off, prompt answering no) still executes the
implementation of a tool whose manifest requires `fs.write`: the call
succeeds and the tool's marker output lands in slot `S0`, contradicting
the claim that the VM checks the declared capability set before invocation
and fails without running tool code. -/
theorem callTool_runs_without_capability_check :
    (execInstr regWriter "/sandbox" (fun _ => false)
        (.callTool "writer" [] [("out", "S0")]) stEmpty).2 = none ∧
    (execInstr regWriter "/sandbox" (fun _ => false)
        (.callTool "writer" [] [("out", "S0")]) stEmpty).1.mem.lookup "S0" =
      some (.str "tool ran") := ⟨rfl, rfl⟩

/-- C2 (amended). The VM performs no capability check on the
`CALL_TOOL` path: the capability state is unchanged by every `CALL_TOOL`
execution (no `require` is consulted), and whenever the tool exists,
inputs resolve and the implementation returns, the tool body runs and its
outputs are stored regardless of the `CapPolicy` state; the declared
capability set is enforced only inside the syscall wrappers a tool may
call through the VM context. -/
theorem callTool_no_capability_check :
    (∀ (reg : Registry) (root : String) (promptYes : String → Bool)
       (name : String) (inputs : List (String × Value))
       (outputs : List (String × String)) (st : VMState),
       ((execInstr reg root promptYes (.callTool name inputs outputs)
         st).1).caps = st.caps) ∧
    (∀ (reg : Registry) (root : String) (promptYes : String → Bool)
       (name : String) (inputs : List (String × Value))
       (outputs : List (String × String)) (st : VMState)
       (tool : Tool) (resolved result : List (String × Value))
       (q' : Quotas),
       reg.lookup name = some tool →
       resolveInputs st.mem inputs = .ok resolved →
       tool.execute resolved = .ok result →
       st.quotas.charge .cpuMs 10 = .ok q' →
       execInstr reg root promptYes (.callTool name inputs outputs) st =
         ({ st with
            mem := storeOutputs result outputs st.mem
            quotas := q' }, none)) := by
  constructor
  · intro reg root promptYes name inputs outputs st
    simp only [execInstr]
    cases hr : resolveInputs st.mem inputs with
    | error e => simp [hr]
    | ok resolved =>
      simp only [hr]
      cases hlk : reg.lookup name with
      | none => simp [hlk]
      | some tool =>
        simp only [hlk]
        cases hex : tool.execute resolved with
        | error msg => simp [hex]
        | ok result =>
          simp only [hex]
          cases hch : st.quotas.charge .cpuMs 10 with
          | error e => simp [hch]
          | ok q => simp [hch]
  · intro reg root promptYes name inputs outputs st tool resolved result q'
      hlk hr hex hch
    simp only [execInstr, hr, hlk, hex, hch]

/-- C2 witness. The no-grants state of the counterexample, fed through
the amended theorem: the tool body runs and its output is stored. -/
theorem callTool_no_capability_check_witness :
    execInstr regWriter "/sandbox" (fun _ => false)
        (.callTool "writer" [] [("out", "S0")]) stEmpty =
      ({ stEmpty with
         mem := [("S0", .str "tool ran")]
         quotas := { q0 with cpuMs := 10 } }, none) :=
  callTool_no_capability_check.2 regWriter "/sandbox" (fun _ => false)
    "writer" [] [("out", "S0")] stEmpty
    { capabilities := ["fs.write"],
      execute := fun _ => .ok [("out", .str "tool ran")] }
    [] [("out", .str "tool ran")] { q0 with cpuMs := 10 } rfl rfl rfl rfl

/-! ## C6: tool output handling -/

lemma lookup_map_update (m : List (String × Value)) (k : String) (v : Value)
    (slot : String) (h : slot ≠ k) :
    (m.map (fun p => if p.1 == k then (k, v) else p)).lookup slot =
      m.lookup slot := by
  induction m with
  | nil => rfl
  | cons p rest ih =>
    by_cases hp : (p.1 == k) = true
    · rw [List.map_cons, if_pos hp]
      have hk : p.1 = k := eq_of_beq hp
      have h1 : (slot == k) = false := by simp [h]
      have h2 : (slot == p.1) = false := by simp [hk ▸ h]
      simp only [List.lookup, h1, h2]
      exact ih
    · rw [List.map_cons, if_neg hp]
      simp only [List.lookup]
      cases hs : slot == p.1
      · exact ih
      · rfl

lemma lookup_append_ne (m : List (String × Value)) (k : String) (v : Value)
    (slot : String) (h : slot ≠ k) :
    (m ++ [(k, v)]).lookup slot = m.lookup slot := by
  induction m with
  | nil =>
    have h1 : (slot == k) = false := by simp [h]
    simp [List.lookup, h1]
  | cons p rest ih =>
    simp only [List.cons_append, List.lookup]
    cases hs : slot == p.1
    · exact ih
    · rfl

lemma setKey_lookup_ne (m : List (String × Value)) (k : String) (v : Value)
    (slot : String) (h : slot ≠ k) :
    (setKey m k v).lookup slot = m.lookup slot := by
  unfold setKey
  split
  · exact lookup_map_update m k v slot h
  · exact lookup_append_ne m k v slot h

lemma storeOutputs_cons (result : List (String × Value))
    (kv : String × String) (rest : List (String × String))
    (mem : List (String × Value)) :
    storeOutputs result (kv :: rest) mem =
      storeOutputs result rest
        (match result.lookup kv.1 with
         | some v => setKey mem kv.2 v
         | none => mem) := rfl

lemma storeOutputs_lookup_ne (result : List (String × Value))
    (outs : List (String × String)) (mem : List (String × Value))
    (slot : String) (h : ∀ kv ∈ outs, slot ≠ kv.2) :
    (storeOutputs result outs mem).lookup slot = mem.lookup slot := by
  induction outs generalizing mem with
  | nil => rfl
  | cons kv rest ih =>
    rw [storeOutputs_cons]
    rw [ih _ (fun kv' h' => h kv' (List.mem_cons_of_mem _ h'))]
    cases hres : result.lookup kv.1 with
    | none => rfl
    | some v =>
      exact setKey_lookup_ne mem kv.2 v slot (h kv (List.mem_cons_self _ _))

/-- C6 counterexample. A tool whose instruction declares the output
port `declared` but whose implementation returns only the undeclared port
`extra`: the `CALL_TOOL` completes with *no* runtime error and the slot
map is untouched, contradicting the claim that failing to produce a
declared output port causes a runtime error. -/
theorem callTool_missing_declared_output_no_error :
    (execInstr regNoOutput "/sandbox" (fun _ => false)
        (.callTool "skipper" [] [("declared", "S0")]) stEmpty).2 =
      none ∧
    (execInstr regNoOutput "/sandbox" (fun _ => false)
        (.callTool "skipper" [] [("declared", "S0")]) stEmpty).1.mem =
      [] := ⟨rfl, rfl⟩

/-- C6 (amended). Outputs produced by the implementation that are not
among the instruction's declared output ports are dropped without error
(no slot outside the declared output map ever changes); a tool that fails
to produce a declared output port does *not* cause a runtime error — the
missing port is silently skipped, its slot is left unwritten, and the
invocation completes successfully; no output validation happens at all. -/
theorem callTool_output_handling :
    (∀ (result : List (String × Value)) (outs : List (String × String))
       (mem : List (String × Value)) (slot : String),
       slot ∉ outs.map Prod.snd →
       (storeOutputs result outs mem).lookup slot = mem.lookup slot) ∧
    (∀ (result : List (String × Value)) (key slot : String)
       (mem : List (String × Value)),
       result.lookup key = none →
       storeOutputs result [(key, slot)] mem = mem) ∧
    (∀ (reg : Registry) (root : String) (promptYes : String → Bool)
       (name : String) (inputs : List (String × Value))
       (outputs : List (String × String)) (st : VMState)
       (tool : Tool) (resolved result : List (String × Value))
       (q' : Quotas),
       reg.lookup name = some tool →
       resolveInputs st.mem inputs = .ok resolved →
       tool.execute resolved = .ok result →
       st.quotas.charge .cpuMs 10 = .ok q' →
       (execInstr reg root promptYes (.callTool name inputs outputs)
         st).2 = none) := by
  refine ⟨?_, ?_, ?_⟩
  · intro result outs mem slot h
    refine storeOutputs_lookup_ne result outs mem slot ?_
    intro kv hkv heq
    exact h (heq ▸ List.mem_map_of_mem Prod.snd hkv)
  · intro result key slot mem h
    simp [storeOutputs, h]
  · intro reg root promptYes name inputs outputs st tool resolved result q'
      hlk hr hex hch
    simp only [execInstr, hr, hlk, hex, hch]

/-- C6 witness. The output-skipping tool of the counterexample: the undeclared
`extra` output changes no slot outside the declared map, the missing
`declared` port is skipped, and the call reports no error. -/
theorem callTool_output_handling_witness :
    (storeOutputs [("extra", .num 1)] [("declared", "S0")] []).lookup "S1" =
      (([] : List (String × Value)).lookup "S1") ∧
    storeOutputs [("extra", .num 1)] [("declared", "S0")] [] = [] ∧
    (execInstr regNoOutput "/sandbox" (fun _ => false)
        (.callTool "skipper" [] [("declared", "S0")]) stEmpty).2 =
      none := by
  refine ⟨callTool_output_handling.1 [("extra", .num 1)] [("declared", "S0")]
      [] "S1" (by decide),
    callTool_output_handling.2.1 [("extra", .num 1)] "declared" "S0" []
      rfl,
    callTool_output_handling.2.2 regNoOutput "/sandbox" (fun _ => false)
      "skipper" [] [("declared", "S0")] stEmpty
      { capabilities := [], execute := fun _ => .ok [("extra", .num 1)] }
      [] [("extra", .num 1)] { q0 with cpuMs := 10 } rfl rfl rfl rfl⟩

/-! ## C3: no TxLog failure entry is written when a run halts -/

lemma fsReadCSV_escape (root : String) (promptYes : String → Bool)
    (path : String) (st : VMState) (caps' : CapState)
    (hreq : st.caps.require promptYes "fs.read" = some caps')
    (hesc : strStartsWith (resolvePath path) (resolvePath root) = false) :
    fsReadCSV root promptYes path st =
      ({ st with caps := caps' }, .error .permissionDenied) := by
  have hens : ensureUnder root path = .error .permissionDenied := by
    simp [ensureUnder, hesc]
  simp only [fsReadCSV, hreq, hens]

/-- C3 counterexample. The sandbox-escape run: `fs.read` is declared,
`/etc/passwd` exists, and the program is `[READ_CSV ../etc/passwd]`.  The
run halts with `PermissionDenied`, but the TxLog holds *only* the
`RUN_START` record — no entry capturing the failure is written — so the
claim that every halting error writes a TxLog failure entry is false (the
"no file opened" half does hold: `opened` stays empty). -/
theorem run_escape_writes_no_failure_entry :
    runProg [] "/sandbox" (fun _ => false)
        [.readCSV "/sandbox/../etc/passwd" "S0"] stEscape =
      ({ stEscape with
          caps := capsReadGranted
          txlog := [.runStart] },
        some .permissionDenied) ∧
    ({ stEscape with
       caps := capsReadGranted
       txlog := [.runStart] } : VMState).opened = [] := ⟨rfl, rfl⟩

/-- C3 (amended). When the VM halts on a sandbox escape, the error
propagates with *no* TxLog entry capturing the failure: the log gains only
the `RUN_START` record (entries are written only for completed effects,
plus the `ASSERT_GE` check record), no file is opened, and nothing is
written. -/
theorem run_escape_no_failure_entry
    (reg : Registry) (root : String) (promptYes : String → Bool)
    (path slot : String) (st : VMState) (caps' : CapState)
    (hreq : st.caps.require promptYes "fs.read" = some caps')
    (hesc : strStartsWith (resolvePath path) (resolvePath root) = false) :
    runProg reg root promptYes [.readCSV path slot] st =
      ({ st with
          caps := caps'
          txlog := st.txlog ++ [.runStart] },
        some .permissionDenied) := by
  have h1 := fsReadCSV_escape root promptYes path
    { st with txlog := st.txlog ++ [.runStart] } caps' hreq hesc
  simp only [runProg, runSteps, execInstr, h1]

/-- C3 witness. The escape scenario fed through the amended theorem. -/
theorem run_escape_no_failure_entry_witness :
    runProg [] "/sandbox" (fun _ => false)
        [.readCSV "/sandbox/../etc/passwd" "S0"] stEscape =
      ({ stEscape with
         caps := capsReadGranted
         txlog := stEscape.txlog ++ [.runStart] },
        some .permissionDenied) :=
  run_escape_no_failure_entry [] "/sandbox" (fun _ => false)
    "/sandbox/../etc/passwd" "S0" stEscape capsReadGranted rfl rfl

/-! ## C1: the sandbox containment check -/

/-- C1 counterexample. `ensure_under` accepts a path operand equal to
the sandbox root itself (the claim requires `PermissionDenied`), and also
accepts the escaping sibling path `/sandbox2/secret` for root `/sandbox`,
because the containment test is a plain string `startswith` on the
resolved paths (`/sandbox2/secret` does not lie under `/sandbox/`). -/
theorem ensureUnder_accepts_root_and_siblings :
    ensureUnder "/sandbox" "/sandbox" = .ok "/sandbox" ∧
    ensureUnder "/sandbox" "/sandbox2/secret" = .ok "/sandbox2/secret" ∧
    strStartsWith "/sandbox2/secret" ("/sandbox" ++ "/") = false :=
  ⟨rfl, rfl, rfl⟩

/-- C1 (amended). Every mutating primitive canonicalizes its path
operand and tests the resolved string with `startswith` against the
resolved root; when that string test fails — in particular for `..`
components that escape the root — `PermissionDenied` is raised before any
effect (nothing written, logged, opened, or charged).  The test however
*accepts* the sandbox root itself and any sibling whose resolved string
merely extends the root's string. -/
theorem fsWriteText_escape
    (root : String) (promptYes : String → Bool) (dry : Bool)
    (path text : String) (st : VMState) (caps' : CapState)
    (hreq : st.caps.require promptYes "fs.write" = some caps')
    (hesc : strStartsWith (resolvePath path) (resolvePath root) = false) :
    fsWriteText root promptYes dry path text st =
      ({ st with caps := caps' }, some .permissionDenied) := by
  have hens : ensureUnder root path = .error .permissionDenied := by
    simp [ensureUnder, hesc]
  simp only [fsWriteText, hreq, hens]

/-- C1 witness. A write of `"hi"` to `/sandbox/../etc/x` with
`fs.write` declared: rejected with `PermissionDenied`, state untouched
except the persisted capability grant. -/
theorem fsWriteText_escape_witness :
    fsWriteText "/sandbox" (fun _ => false) false "/sandbox/../etc/x" "hi"
        { stEmpty with caps := capsWrite } =
      ({ stEmpty with caps := capsWriteGranted }, some .permissionDenied) :=
  fsWriteText_escape "/sandbox" (fun _ => false) false "/sandbox/../etc/x"
    "hi" { stEmpty with caps := capsWrite } capsWriteGranted rfl rfl

/-! ## C4: the deterministic split -/

lemma splitLoop_ratio_zero {α : Type} (seed : ℤ) (i : ℕ) (rows : List α) :
    splitLoop 0 seed i rows = ([], rows) := by
  induction rows generalizing i with
  | nil => rfl
  | cons r rs ih =>
    simp only [splitLoop, ih]
    rw [if_neg]
    intro hlt
    have h0 : (0 : ℚ) ≤ (md5FirstByte i seed : ℚ) / 255 := by positivity
    linarith

lemma splitLoop_length {α : Type} (ratio : ℚ) (seed : ℤ) (i : ℕ)
    (rows : List α) :
    (splitLoop ratio seed i rows).1.length +
      (splitLoop ratio seed i rows).2.length = rows.length := by
  induction rows generalizing i with
  | nil => rfl
  | cons r rs ih =>
    simp only [splitLoop]
    split
    · simp only [List.length_cons]
      have := ih (i + 1)
      omega
    · simp only [List.length_cons]
      have := ih (i + 1)
      omega

/-- C4 counterexample. Ratio `1.0`, seed `1337`, two rows: the hash
loop sends both rows to train (`md5` first bytes 92 and 195, both
`< 255`), after which the small-dataset adjustment pops the *last train
row into validation* — so not every row is placed in the train
partition. -/
theorem split_ratio_one_not_all_train :
    splitRows (1 : ℚ) 1337 [(0 : ℕ), 1] = ([0], [1]) ∧
    (splitRows (1 : ℚ) 1337 [(0 : ℕ), 1]).1 ≠ [0, 1] := by
  have h0 : md5FirstByte 0 1337 = 92 := by decide
  have h1 : md5FirstByte 1 1337 = 195 := by decide
  have key : splitRows (1 : ℚ) 1337 [(0 : ℕ), 1] = ([0], [1]) := by
    simp only [splitRows, splitLoop, h0, h1]
    norm_num
  exact ⟨key, by rw [key]; decide⟩

/-- C4 (amended). With ratio `0.0` every row lands in validation; for
every table with at least two rows the validation partition is non-empty
(for any ratio — the adjustment moves the last train row when the loop
left validation empty); and with ratio `1.0` the hash loop sends every
row to train whenever no row's hash byte equals 255 — the adjustment then
moves the last train row to validation, so ratio `1.0` does *not* put
every row in train. -/
theorem split_spec :
    (∀ {α : Type} (seed : ℤ) (rows : List α),
       splitRows 0 seed rows = ([], rows)) ∧
    (∀ {α : Type} (ratio : ℚ) (seed : ℤ) (rows : List α),
       2 ≤ rows.length → (splitRows ratio seed rows).2 ≠ []) ∧
    (∀ {α : Type} (seed : ℤ) (i : ℕ) (rows : List α),
       (∀ j < rows.length, md5FirstByte (i + j) seed < 255) →
       splitLoop 1 seed i rows = (rows, [])) := by
  refine ⟨?_, ?_, ?_⟩
  · intro α seed rows
    unfold splitRows
    rw [splitLoop_ratio_zero]
    cases rows with
    | nil => rfl
    | cons r rs => rfl
  · intro α ratio seed rows h2
    unfold splitRows
    have hlen := splitLoop_length ratio seed 0 rows
    by_cases hva : (splitLoop ratio seed 0 rows).2.isEmpty = true
    · have hva' : (splitLoop ratio seed 0 rows).2 = [] :=
        List.isEmpty_iff.mp hva
      have hl1 : 1 < (splitLoop ratio seed 0 rows).1.length := by
        rw [hva'] at hlen
        simp at hlen
        omega
      rw [if_pos ⟨hva, hl1⟩]
      have hne : (splitLoop ratio seed 0 rows).1 ≠ [] := by
        intro hnil
        rw [hnil] at hl1
        simp at hl1
      cases hgl : (splitLoop ratio seed 0 rows).1.getLast? with
      | none => exact absurd (List.getLast?_eq_none_iff.mp hgl) hne
      | some x => simp [hva', hgl]
    · rw [if_neg (fun hand => hva hand.1)]
      intro hnil
      rw [hnil] at hva
      exact hva rfl
  · intro α seed i rows h
    induction rows generalizing i with
    | nil => rfl
    | cons r rs ih =>
      have h0 : md5FirstByte i seed < 255 := by
        have := h 0 (by simp)
        simpa using this
      simp only [splitLoop]
      rw [ih (i + 1) (fun j hj => by
        have := h (j + 1) (by simpa using Nat.succ_lt_succ hj)
        rwa [show i + (j + 1) = i + 1 + j by omega] at this)]
      rw [if_pos]
      rw [div_lt_one (by norm_num)]
      exact_mod_cast h0

/-- C4 witness. The amended theorem at concrete inputs: ratio `0.0` on
a one-row table, a two-row table getting a non-empty validation split, and
the ratio-`1.0` loop keeping a row whose hash byte (92) is below 255. -/
theorem split_spec_witness :
    splitRows (0 : ℚ) 7 [true] = ([], [true]) ∧
    (splitRows (1 / 2 : ℚ) 7 [true, false]).2 ≠ [] ∧
    splitLoop (1 : ℚ) 1337 0 [(5 : ℕ)] = ([5], []) :=
  ⟨split_spec.1 7 [true],
   split_spec.2.1 (1 / 2) 7 [true, false] (by decide),
   split_spec.2.2 1337 0 [5] (fun j hj => by
     have hj0 : j = 0 := by simpa using hj
     subst hj0
     decide)⟩

/-! ## C7: undo versus the created-path record -/

lemma undoStep_mono (acc : Fs × List String) (p q : String)
    (h : q ∈ acc.2) : q ∈ (undoStep acc p).2 := by
  unfold undoStep
  split
  · exact List.mem_append_left _ h
  · split
    · split
      · exact List.mem_append_left _ h
      · exact h
    · exact h

lemma undoStep_hit (acc : Fs × List String) (p : String)
    (h : resolvePath p ∈ acc.1.files) :
    resolvePath p ∈ (undoStep acc p).2 := by
  unfold undoStep
  rw [if_pos (List.elem_iff.mpr h)]
  exact List.mem_append_right _ (by simp)

lemma undoStep_files (acc : Fs × List String) (p q : String)
    (h : q ∈ acc.1.files) :
    q ∈ (undoStep acc p).1.files ∨ q ∈ (undoStep acc p).2 := by
  unfold undoStep
  by_cases h1 : acc.1.files.contains (resolvePath p) = true
  · rw [if_pos h1]
    by_cases hq : q = resolvePath p
    · right
      exact List.mem_append_right _ (by simp [hq])
    · left
      exact (List.mem_erase_of_ne hq).mpr h
  · rw [if_neg h1]
    split
    · split
      · exact Or.inl h
      · exact Or.inl h
    · exact Or.inl h

lemma undoStep_sub (acc : Fs × List String) (p q : String)
    (h : q ∈ (undoStep acc p).2) : q ∈ acc.2 ∨ q = resolvePath p := by
  unfold undoStep at h
  split at h
  · rcases List.mem_append.mp h with h' | h'
    · exact Or.inl h'
    · exact Or.inr (List.mem_singleton.mp h')
  · split at h
    · split at h
      · rcases List.mem_append.mp h with h' | h'
        · exact Or.inl h'
        · exact Or.inr (List.mem_singleton.mp h')
      · exact Or.inl h
    · exact Or.inl h

lemma undoFold_mono (L : List String) (acc : Fs × List String) (q : String)
    (h : q ∈ acc.2) : q ∈ (L.foldl undoStep acc).2 := by
  induction L generalizing acc with
  | nil => exact h
  | cons x L ih => exact ih _ (undoStep_mono acc x q h)

lemma undoFold_removes_files (L : List String) (acc : Fs × List String)
    (q : String) (hq : q ∈ L)
    (hcase : resolvePath q ∈ acc.1.files ∨ resolvePath q ∈ acc.2) :
    resolvePath q ∈ (L.foldl undoStep acc).2 := by
  induction L generalizing acc with
  | nil => cases hq
  | cons x L ih =>
    simp only [List.foldl_cons]
    rcases List.mem_cons.mp hq with rfl | hq'
    · rcases hcase with hf | hr
      · exact undoFold_mono L _ _ (undoStep_hit acc q hf)
      · exact undoFold_mono L _ _ (undoStep_mono acc q _ hr)
    · rcases hcase with hf | hr
      · rcases undoStep_files acc x _ hf with h1 | h2
        · exact ih _ hq' (Or.inl h1)
        · exact ih _ hq' (Or.inr h2)
      · exact ih _ hq' (Or.inr (undoStep_mono acc x _ hr))

lemma undoFold_sub (L : List String) (acc : Fs × List String) (q : String)
    (h : q ∈ (L.foldl undoStep acc).2) :
    q ∈ acc.2 ∨ ∃ x ∈ L, q = resolvePath x := by
  induction L generalizing acc with
  | nil => exact Or.inl h
  | cons x L ih =>
    simp only [List.foldl_cons] at h
    rcases ih _ h with h' | ⟨y, hy, rfl⟩
    · rcases undoStep_sub acc x q h' with h'' | rfl
      · exact Or.inl h''
      · exact Or.inr ⟨x, List.mem_cons_self _ _, rfl⟩
    · exact Or.inr ⟨y, List.mem_cons_of_mem _ hy, rfl⟩

lemma mem_recCreatedPaths (r : TxRec) (p : String) :
    p ∈ recCreatedPaths r ↔
      p ∈ specRecCreated r ∨ ∃ n, r = .writeChecksums p n := by
  cases r with
  | runStart => simp [recCreatedPaths, specRecCreated]
  | runEnd => simp [recCreatedPaths, specRecCreated]
  | readCSV a b => simp [recCreatedPaths, specRecCreated]
  | writeFile path pre created =>
    cases created <;> simp [recCreatedPaths, specRecCreated]
  | writeJson path pre created =>
    cases created <;> simp [recCreatedPaths, specRecCreated]
  | makeDir path pre created =>
    cases created <;> simp [recCreatedPaths, specRecCreated]
  | zipRec s d pre created =>
    cases created <;> simp [recCreatedPaths, specRecCreated]
  | assertGE f v t ok => simp [recCreatedPaths, specRecCreated]
  | writeChecksums path n =>
    simp [recCreatedPaths, specRecCreated, eq_comm]

lemma mem_collectCreated (rid : String) (recs : List LogLine) (p : String) :
    p ∈ collectCreated rid recs ↔
      ∃ l ∈ recs, l.runId = rid ∧ p ∈ recCreatedPaths l.entry := by
  induction recs with
  | nil => simp [collectCreated]
  | cons l rest ih =>
    simp only [collectCreated, List.mem_append, ih]
    by_cases hl : l.runId = rid
    · simp [hl, List.exists_mem_cons_iff]
    · simp [hl, List.exists_mem_cons_iff]

lemma mem_specCreatedTrue (rid : String) (recs : List LogLine) (p : String) :
    p ∈ specCreatedTrue rid recs ↔
      ∃ l ∈ recs, l.runId = rid ∧ p ∈ specRecCreated l.entry := by
  induction recs with
  | nil => simp [specCreatedTrue]
  | cons l rest ih =>
    simp only [specCreatedTrue, List.mem_append, ih]
    by_cases hl : l.runId = rid
    · simp [hl, List.exists_mem_cons_iff]
    · simp [hl, List.exists_mem_cons_iff]

/-- C7 counterexample. A run whose only mutating record is
`WRITE_CHECKSUMS` (which carries no `created` field): the set of paths
recorded with `created=true` is empty, yet Undo removes the checksum
manifest file — so the two sets differ. -/
theorem undo_removes_path_without_created_flag :
    specCreatedTrue "r1" logsC7 = [] ∧
    (undoLastRun logsC7 fsC7).2 = ["/s/out/checksums.json"] := by
  constructor
  · decide
  · decide

/-- C7 (amended). Undo's collected set is the run's `created=true`
paths *plus* its `WRITE_CHECKSUMS` paths; every path Undo removes is the
resolution of a collected path of the last run, and every collected path
that exists as a file is removed (files unconditionally; directories only
when empty; non-existent targets skipped). -/
theorem undo_collect_spec :
    (∀ (rid : String) (recs : List LogLine) (p : String),
       p ∈ collectCreated rid recs ↔
         (p ∈ specCreatedTrue rid recs ∨
          ∃ l ∈ recs, l.runId = rid ∧ ∃ n, l.entry = .writeChecksums p n)) ∧
    (∀ (recs : List LogLine) (fs : Fs) (p : String),
       p ∈ (undoLastRun recs fs).2 →
       ∃ rid, lastRunId recs = some rid ∧
         ∃ q ∈ collectCreated rid recs, p = resolvePath q) ∧
    (∀ (recs : List LogLine) (fs : Fs) (rid q : String),
       lastRunId recs = some rid → q ∈ collectCreated rid recs →
       resolvePath q ∈ fs.files →
       resolvePath q ∈ (undoLastRun recs fs).2) := by
  refine ⟨?_, ?_, ?_⟩
  · intro rid recs p
    rw [mem_collectCreated]
    constructor
    · rintro ⟨l, hl, hrid, hp⟩
      rcases (mem_recCreatedPaths l.entry p).mp hp with h | ⟨n, hn⟩
      · exact Or.inl ((mem_specCreatedTrue rid recs p).mpr ⟨l, hl, hrid, h⟩)
      · exact Or.inr ⟨l, hl, hrid, n, hn⟩
    · rintro (h | ⟨l, hl, hrid, n, hn⟩)
      · obtain ⟨l, hl, hrid, hp⟩ := (mem_specCreatedTrue rid recs p).mp h
        exact ⟨l, hl, hrid, (mem_recCreatedPaths l.entry p).mpr (Or.inl hp)⟩
      · exact ⟨l, hl, hrid, (mem_recCreatedPaths l.entry p).mpr
          (Or.inr ⟨n, hn⟩)⟩
  · intro recs fs p hp
    unfold undoLastRun at hp
    cases hr : lastRunId recs with
    | none => rw [hr] at hp; cases hp
    | some rid =>
      rw [hr] at hp
      rcases undoFold_sub _ _ _ hp with h | ⟨x, hx, rfl⟩
      · cases h
      · exact ⟨rid, rfl, x, List.mem_reverse.mp hx, rfl⟩
  · intro recs fs rid q hrid hq hfile
    unfold undoLastRun
    rw [hrid]
    exact undoFold_removes_files _ _ _ (List.mem_reverse.mpr hq)
      (Or.inl hfile)

/-- C7 witness. The checksum scenario: the manifest path is collected
(via the `WRITE_CHECKSUMS` arm) and, existing as a file, is removed. -/
theorem undo_collect_spec_witness :
    resolvePath "/s/out/checksums.json" ∈ (undoLastRun logsC7 fsC7).2 :=
  undo_collect_spec.2.2 logsC7 fsC7 "r1" "/s/out/checksums.json" rfl
    (by decide) (by decide)

/-! ## C8: the app id versus the canonical JSON encoding -/

lemma charListLt_asymm :
    ∀ as bs, charListLt as bs = true → charListLt bs as = false := by
  intro as
  induction as with
  | nil =>
    intro bs h
    cases bs with
    | nil => simp [charListLt] at h
    | cons b bs => simp [charListLt]
  | cons a as ih =>
    intro bs h
    cases bs with
    | nil => simp [charListLt] at h
    | cons b bs =>
      unfold charListLt at h ⊢
      by_cases h1 : a.toNat < b.toNat
      · rw [if_neg (by omega), if_pos h1]
      · rw [if_neg h1] at h
        by_cases h2 : b.toNat < a.toNat
        · rw [if_pos h2] at h; cases h
        · rw [if_neg h2] at h
          rw [if_neg h2, if_neg h1]
          exact ih bs h

lemma insertField_front (x : String × BCScalar)
    (xs : List (String × BCScalar))
    (h : ∀ y ∈ xs, strLt x.1 y.1 = true) :
    insertField x xs = x :: xs := by
  cases xs with
  | nil => rfl
  | cons y ys =>
    unfold insertField
    rw [if_neg]
    intro hlt
    have := charListLt_asymm _ _ (h y (List.mem_cons_self _ _))
    rw [strLt] at hlt
    rw [this] at hlt
    cases hlt

lemma sortFields_sorted_id (fields : List (String × BCScalar))
    (h : FieldsSortedLt fields) : sortFields fields = fields := by
  induction fields with
  | nil => rfl
  | cons kv rest ih =>
    unfold sortFields
    rw [ih (List.pairwise_cons.mp h).2]
    exact insertField_front kv rest (List.pairwise_cons.mp h).1

lemma canonOperand_id (op : BCOperand) (h : OperandSorted op) :
    canonOperand op = op := by
  cases op with
  | scalar v => rfl
  | obj fields =>
    simp only [canonOperand]
    rw [sortFields_sorted_id fields h]

lemma map_canonOperand_id (ins : List BCOperand)
    (h : ∀ op ∈ ins, OperandSorted op) : ins.map canonOperand = ins := by
  induction ins with
  | nil => rfl
  | cons op ops ih =>
    simp only [List.map_cons]
    rw [canonOperand_id op (h op (List.mem_cons_self _ _)),
      ih (fun o ho => h o (List.mem_cons_of_mem _ ho))]

lemma canonProgram_id (p : BCProgram) (h : ProgramSorted p) :
    canonProgram p = p := by
  unfold canonProgram
  induction p with
  | nil => rfl
  | cons ins rest ih =>
    simp only [List.map_cons]
    rw [map_canonOperand_id ins (h ins (List.mem_cons_self _ _)),
      ih (fun i hi o ho => h i (List.mem_cons_of_mem _ hi) o ho)]

/-- C8 counterexample. A program whose `CALL_TOOL` inputs map has keys
in the order `b`, `a`: the source's `app_id` hashes the insertion-order
encoding (`{"b":1,"a":2}`), not the canonical sorted-keys encoding, and
the two 12-character prefixes differ (the two full digests are pinned to
the values `hashlib.sha256` produces). -/
theorem appId_ignores_key_order :
    appId progC8 = "b12fcd9139a7" ∧
    specCanonicalAppId progC8 = "c14da3782c76" ∧
    appId progC8 ≠ specCanonicalAppId progC8 := by
  refine ⟨by decide, by decide, by decide⟩

/-- C8 (amended). `app_id` is the first 12 hex characters of the
SHA-256 of `json.dumps(program, separators=(",", ":"))` with keys in
*insertion* order (no `sort_keys`); it equals the hash of the spec's
canonical (sorted-keys) encoding exactly for programs whose map operands
already carry their keys in sorted order. -/
theorem appId_canonical_when_sorted (p : BCProgram) (h : ProgramSorted p) :
    appId p = specCanonicalAppId p := by
  unfold specCanonicalAppId dumpsCanonical
  rw [canonProgram_id p h]
  rfl

/-- C8 witness. The sorted-keys variant of the counterexample program:
its `app_id` coincides with the canonical-encoding hash. -/
theorem appId_canonical_when_sorted_witness :
    ProgramSorted progC8sorted ∧
    appId progC8sorted = specCanonicalAppId progC8sorted :=
  ⟨by decide, appId_canonical_when_sorted progC8sorted (by decide)⟩

end AiOs
